import Mathlib

/-!
Verification development for the custom-field construction, validation and
serialization engine of a Jira command-line client.

The Go sources embedded here:
  - `cmdcommon` (ValidateCustomFields, ValidateAndFilterCustomFields),
  - `jira` (BuildCustomFieldsForTransition, transitionFieldsMarshaler.MarshalJSON,
    NewTransitionFieldsMarshaler),
  - `jira/createmeta` (GetIssueTypeFields).

Modelling conventions:
  - Go `map[string]T` values are embedded as association lists
    `List (String × T)`; a map built by successive insertion is read through
    `goLookup`, which returns the last binding of a key (Go map writes
    overwrite earlier ones).  Iteration over a Go map (whose order is
    unspecified) is embedded as iteration over the association list, so all
    theorems are stated for an arbitrary iteration order.
  - Go standard-library string functions are embedded as executable functions
    on `String` working over the underlying character list.  `strings.ToLower`
    and `strings.TrimSpace` are modelled on their ASCII behaviour, which covers
    every use in this code base; `strings.ReplaceAll` is only ever called with
    the single-character pattern `" "` and is embedded as the corresponding
    character map.
  - `float64` values produced by `strconv.ParseFloat` are embedded as exact
    rationals of the parsed decimal literal; the parser models the plain
    decimal syntax (sign, digits, fraction, exponent) accepted by Go.
-/

/-! ## Models of the Go standard-library string functions -/

/-- Model of Go `strings.ToLower` for one character, restricted to ASCII. -/
def goToLowerChar (c : Char) : Char :=
  if 'A' ≤ c ∧ c ≤ 'Z' then Char.ofNat (c.toNat + 32) else c

/-- Model of Go `strings.ToLower` (ASCII range, which covers all uses here). -/
def goToLower (s : String) : String :=
  ⟨s.data.map goToLowerChar⟩

/-- Model of Go `unicode.IsSpace` restricted to the ASCII white-space
characters recognised there. -/
def isGoSpace (c : Char) : Bool :=
  c == ' ' || c == '\t' || c == '\n' || c == '\x0b' || c == '\x0c' || c == '\r'

/-- Model of Go `strings.TrimSpace`. -/
def goTrimSpace (s : String) : String :=
  ⟨((s.data.dropWhile isGoSpace).reverse.dropWhile isGoSpace).reverse⟩

/-- Model of Go `strings.ReplaceAll(s, " ", "-")`: with a single-character
pattern the replacement is exactly a character map. -/
def goReplaceSpaceWithHyphen (s : String) : String :=
  ⟨s.data.map (fun c => if c = ' ' then '-' else c)⟩

/-- Splitting a character list on the comma character; models
Go `strings.Split(s, ",")`, in particular splitting an empty string
yields one empty piece. -/
def splitOnCommaChars : List Char → List (List Char)
  | [] => [[]]
  | c :: rest =>
    match splitOnCommaChars rest, c == ',' with
    | r, true => [] :: r
    | [], false => [[c]]
    | h :: t, false => (c :: h) :: t

/-- Model of Go `strings.Split(s, ",")`. -/
def goSplitComma (s : String) : List String :=
  (splitOnCommaChars s.data).map (fun cs => ⟨cs⟩)

/-- Does the first character list start with the second one. -/
def listStartsWith : List Char → List Char → Bool
  | _, [] => true
  | [], _ :: _ => false
  | a :: as, b :: bs => a == b && listStartsWith as bs

/-- Model of Go `strings.HasPrefix`. -/
def goStartsWith (s pre : String) : Bool :=
  listStartsWith s.data pre.data

/-- Whether `needle` occurs as a contiguous substring of `hay`
(used to inspect concrete diagnostic messages). -/
def containsSub (needle : List Char) : List Char → Bool
  | [] => needle.isEmpty
  | c :: rest => listStartsWith (c :: rest) needle || containsSub needle rest

/-- String-level substring occurrence test. -/
def occursIn (needle hay : String) : Bool :=
  containsSub needle.data hay.data

/-- Model of Go `strings.Join`. -/
def goJoin (sep : String) : List String → String
  | [] => ""
  | [s] => s
  | s :: s2 :: rest => s ++ sep ++ goJoin sep (s2 :: rest)

/-- One digit test, models the digit range of Go number parsing. -/
def isDigitChar (c : Char) : Bool :=
  '0' ≤ c && c ≤ '9'

/-- Value of a digit string (most significant digit first). -/
def digitsToNat (ds : List Char) : Nat :=
  ds.foldl (fun n c => n * 10 + (c.toNat - 48)) 0

/-- Consume an optional leading sign, as Go `strconv.ParseFloat` does. -/
def parseSign : List Char → Int × List Char
  | '+' :: r => (1, r)
  | '-' :: r => (-1, r)
  | r => (1, r)

/-- Model of Go `strconv.ParseFloat(s, 64)` on the plain decimal syntax
(optional sign, digits with optional fraction, optional exponent); the result
is the exact rational value of the accepted literal, `none` models a parse
error. -/
def parseGoFloat (s : String) : Option Rat :=
  if s.data.isEmpty then none
  else
    let (sign, rest) := parseSign s.data
    let intPart := rest.takeWhile isDigitChar
    let rest1 := rest.dropWhile isDigitChar
    let fracAndRest : List Char × List Char :=
      match rest1 with
      | '.' :: r => (r.takeWhile isDigitChar, r.dropWhile isDigitChar)
      | _ => ([], rest1)
    let fracPart := fracAndRest.1
    let rest2 := fracAndRest.2
    if intPart.isEmpty && fracPart.isEmpty then none
    else
      let mNum : Int := sign * (digitsToNat intPart * 10 ^ fracPart.length + digitsToNat fracPart)
      let mDen : Nat := 10 ^ fracPart.length
      match rest2 with
      | [] => some (mkRat mNum mDen)
      | e :: er =>
        if e == 'e' || e == 'E' then
          let (esign, digits) := parseSign er
          if digits.isEmpty || !(digits.all isDigitChar) then none
          else if 0 ≤ esign then some (mkRat (mNum * 10 ^ digitsToNat digits) mDen)
          else some (mkRat mNum (mDen * 10 ^ digitsToNat digits))
        else none

/-! ## Go map model -/

/-- Reading a Go map embedded as an association list built by successive
inserts: the last binding of a key wins, matching Go map overwrite
semantics. -/
def goLookup {α : Type} (l : List (String × α)) (k : String) : Option α :=
  l.foldl (fun acc p => if p.1 = k then some p.2 else acc) none

/-- In-place overwrite insert on an association list whose keys are unique;
models a Go map write `m[k] = v`. -/
def goMapInsert {α : Type} (m : List (String × α)) (k : String) (v : α) :
    List (String × α) :=
  match m with
  | [] => [(k, v)]
  | p :: rest => if p.1 = k then (k, v) :: rest else p :: goMapInsert rest k v

/-- The keys of an association list are pairwise distinct (invariant of every
list that stands for a Go map value). -/
def keysNodup {α : Type} (m : List (String × α)) : Prop :=
  (m.map Prod.fst).Nodup

/-! ## Field schema data model

From `jira.IssueTypeField` (fields used by this engine: `Name`, `Key`,
`Schema.Type` as `dataType`, `Schema.Items` as `items`; an absent `Items` is
the empty string). -/

structure Schema where
  dataType : String
  items : String
deriving DecidableEq

structure IssueTypeField where
  name : String
  key : String
  schema : Schema
deriving DecidableEq

/-- The normalized identifier of a configured field name:
`strings.ReplaceAll(strings.ToLower(strings.TrimSpace(name)), " ", "-")`,
recomputed identically at every use site in the source. -/
def identifierOf (name : String) : String :=
  goReplaceSpaceWithHyphen (goToLower (goTrimSpace name))

/-! ## Lenient configured-field check

From `cmdcommon.ValidateCustomFields`.  The Go function returns nothing and
emits a warning naming the invalid fields when there are any; the embedding
returns the list of invalid field names appearing in that warning (the empty
list means no warning is emitted). -/

/-- The `fieldsMap` built by `ValidateCustomFields`: normalized identifier of
each configured name mapped to the configured name. -/
def lenientFieldsMap (configuredFields : List IssueTypeField) : List (String × String) :=
  configuredFields.map (fun c => (identifierOf c.name, c.name))

/-- From `cmdcommon.ValidateCustomFields`: the requested keys that are
collected into `invalidCustomFields` (the loop over the requested map keeps
each key that is absent from `fieldsMap`, looked up without any
normalization of the requested key). -/
def ValidateCustomFields (fields : List (String × String))
    (configuredFields : List IssueTypeField) : List String :=
  if fields.length = 0 then []
  else
    (fields.filter
      (fun p => (goLookup (lenientFieldsMap configuredFields) p.1).isNone)).map Prod.fst

/-! ## Strict validation

From `cmdcommon.ValidateAndFilterCustomFields`. -/

/-- The `configuredMap` of `ValidateAndFilterCustomFields`: normalized
identifier of each configured name mapped to the configured remote key. -/
def configuredIdMap (configuredFields : List IssueTypeField) : List (String × String) :=
  configuredFields.map (fun f => (identifierOf f.name, f.key))

/-- The `availableMap` of `ValidateAndFilterCustomFields`: remote key of each
available field mapped to the field. -/
def availableKeyMap (available : List IssueTypeField) : List (String × IssueTypeField) :=
  available.map (fun f => (f.key, f))

/-- Outcome of the per-name branch of the validation loop. -/
inductive FieldStatus where
  | unknown : FieldStatus
  | unavailable : String → FieldStatus
  | valid : FieldStatus
deriving DecidableEq

/-- The branch taken by the loop body of `ValidateAndFilterCustomFields` for
one requested name: `configuredMap[strings.ToLower(requestedName)]` missing is
`unknown`; a resolved key absent from `availableMap` is `unavailable` carrying
the resolved key; otherwise `valid`. -/
def classifyRequested (configuredFields available : List IssueTypeField)
    (name : String) : FieldStatus :=
  match goLookup (configuredIdMap configuredFields) (goToLower name) with
  | none => .unknown
  | some fieldKey =>
    match goLookup (availableKeyMap available) fieldKey with
    | some _ => .valid
    | none => .unavailable fieldKey

/-- Whether the validation loop keeps a requested name. -/
def isValidReq (configuredFields available : List IssueTypeField) (name : String) : Bool :=
  match classifyRequested configuredFields available name with
  | .valid => true
  | _ => false

/-- The resolved key recorded into `invalidFieldKeys` for a requested name,
when the name is configured but unavailable. -/
def unavailKeyOf (configuredFields available : List IssueTypeField)
    (name : String) : Option String :=
  match classifyRequested configuredFields available name with
  | .unavailable k => some k
  | _ => none

/-- Accumulator of the validation loop: `validFields`, `invalidFields` and
`invalidFieldKeys` of `ValidateAndFilterCustomFields`. -/
structure LoopAcc where
  validFields : List (String × String)
  invalidFields : List String
  invalidFieldKeys : List String
deriving DecidableEq

/-- One iteration of the loop over the requested map in
`ValidateAndFilterCustomFields`. -/
def vafStep (configuredFields available : List IssueTypeField)
    (acc : LoopAcc) (p : String × String) : LoopAcc :=
  match classifyRequested configuredFields available p.1 with
  | .unknown => { acc with invalidFields := acc.invalidFields ++ [p.1] }
  | .unavailable k =>
      { acc with
        invalidFields := acc.invalidFields ++ [p.1],
        invalidFieldKeys := acc.invalidFieldKeys ++ [k] }
  | .valid => { acc with validFields := acc.validFields ++ [(p.1, p.2)] }

/-- The whole loop over the requested map. -/
def vafLoop (configuredFields available : List IssueTypeField)
    (requested : List (String × String)) : LoopAcc :=
  requested.foldl (vafStep configuredFields available) ⟨[], [], []⟩

/-- The `availableCustomFields` list built for the diagnostic: the normalized
identifier of every available field whose key starts with `customfield_` and
whose name is nonempty. -/
def availableCustomIdentifiers (available : List IssueTypeField) : List String :=
  (available.filter
    (fun f => goStartsWith f.key "customfield_" && f.name != "")).map
    (fun f => identifierOf f.name)

/-- The diagnostic message assembled by `ValidateAndFilterCustomFields` when
`invalidFields` is nonempty, exactly as the source concatenates it. -/
def buildErrMsg (issueTypeName : String)
    (invalidFields invalidFieldKeys availableCustomFields : List String) : String :=
  let msg1 :=
    "Invalid custom fields for issue type \x27" ++ issueTypeName ++ "\x27: " ++
      goJoin ", " invalidFields ++
      "\n\nThese fields are not available on the create/edit screen for this issue type.\nThis is a Jira project configuration issue, not a CLI problem.\n\n"
  let msg2 :=
    if invalidFieldKeys.length > 0 then
      msg1 ++ "Field IDs: " ++ goJoin ", " invalidFieldKeys ++ "\n\n"
    else msg1
  let msg3 :=
    if availableCustomFields.length > 0 then
      msg2 ++ "Available custom fields for \x27" ++ issueTypeName ++ "\x27:\n  " ++
        goJoin "\n  " availableCustomFields ++ "\n\n"
    else msg2 ++ "No custom fields are available for this issue type.\n\n"
  msg3 ++
    "To fix this:\n1. Check your Jira project\x27s screen configuration\n2. Add the required fields to the issue type\x27s create screen\n3. Or use only the fields listed as available above"

/-- Result of `ValidateAndFilterCustomFields`: the Go pair
`(map[string]string, error)` is always either `(m, nil)` — embedded `ok m` —
or `(nil, err)` — embedded `err msg`. -/
inductive VResult where
  | ok : List (String × String) → VResult
  | err : String → VResult
deriving DecidableEq

/-- The error message of a `VResult`, when it is an error. -/
def VResult.errMsg : VResult → Option String
  | .ok _ => none
  | .err m => some m

/-- From `cmdcommon.ValidateAndFilterCustomFields`. -/
def ValidateAndFilterCustomFields (requested : List (String × String))
    (available configuredFields : List IssueTypeField)
    (issueTypeName : String) : VResult :=
  if requested.length = 0 then .ok requested
  else
    let acc := vafLoop configuredFields available requested
    if acc.invalidFields.length > 0 then
      .err (buildErrMsg issueTypeName acc.invalidFields acc.invalidFieldKeys
        (availableCustomIdentifiers available))
    else .ok acc.validFields

/-! ## Typed custom-field values and the builder

From `jira.BuildCustomFieldsForTransition`.  `customField` is
`map[string]interface{}` in the source; the values stored into it are the
closed set below (`CFValue`), mirroring the tagged shapes the builder
produces: a plain string, `customFieldTypeNumber` (a `float64`, embedded as
the exact rational), `customFieldTypeOption`, `customFieldTypeProject`,
`[]customFieldTypeOption` (carrying the option values), and `[]string`. -/

inductive CFValue where
  | str : String → CFValue
  | num : Rat → CFValue
  | opt : String → CFValue
  | proj : String → CFValue
  | optList : List String → CFValue
  | strList : List String → CFValue
deriving DecidableEq

/-- The `customFieldFormat*` constants of the source package. -/
def customFieldFormatOption : String := "option"

def customFieldFormatProject : String := "project"

def customFieldFormatArray : String := "array"

def customFieldFormatNumber : String := "number"

/-- The switch on `configured.Schema.DataType` inside
`BuildCustomFieldsForTransition`, classifying one raw value against one
schema. -/
def classify (val : String) (sch : Schema) : CFValue :=
  if sch.dataType = customFieldFormatOption then .opt val
  else if sch.dataType = customFieldFormatProject then .proj val
  else if sch.dataType = customFieldFormatArray then
    let pieces := goSplitComma (goTrimSpace val)
    if sch.items = customFieldFormatOption then .optList (pieces.map goTrimSpace)
    else .strList (pieces.map goTrimSpace)
  else if sch.dataType = customFieldFormatNumber then
    match parseGoFloat val with
    | none => .str val
    | some num => .num num
  else .str val

/-- From `jira.BuildCustomFieldsForTransition`: `none` embeds the `nil` map
returned for empty inputs; otherwise the result lists every write
`cf[configured.Key] = v` in execution order and is read through `goLookup`
(map semantics: the last write to a key wins). -/
def BuildCustomFieldsForTransition (fields : List (String × String))
    (configuredFields : List IssueTypeField) : Option (List (String × CFValue)) :=
  if fields.length = 0 ∨ configuredFields.length = 0 then none
  else
    some (fields.foldl
      (fun cf p =>
        configuredFields.foldl
          (fun cf configured =>
            if identifierOf configured.name ≠ goToLower p.1 then cf
            else cf ++ [(configured.key, classify p.2 configured.schema)])
          cf)
      [])

/-! ## Transition request payload marshaler

From `jira.transitionFieldsMarshaler.MarshalJSON` and
`jira.NewTransitionFieldsMarshaler`.  The marshaler serializes the static
struct (whose unexported `customFields` member is skipped by `json.Marshal`),
re-parses it into a generic `map[string]interface{}`, injects every custom
field into that map, and marshals the map — which Go emits with its keys in
sorted order.  The embedding represents the final JSON object as its
key-sorted association list. -/

/-- Generic JSON values, the image of Go `interface{}` after `json.Unmarshal`
plus the typed custom-field values injected afterwards. -/
inductive Json where
  | str : String → Json
  | num : Rat → Json
  | obj : List (String × Json) → Json
  | arr : List Json → Json

/-- From `jira.TransitionRequestFields`: the two exported, optional static
fields (each a pointer to a struct holding a name, `omitempty`). -/
structure TransitionRequestFields where
  assignee : Option String
  resolution : Option String

/-- The generic map obtained by marshaling the static struct and re-parsing
it: each present pointer field becomes an object with a single `name`
property; absent fields are omitted. -/
def staticObj (f : TransitionRequestFields) : List (String × Json) :=
  (match f.assignee with
    | none => []
    | some n => [("assignee", Json.obj [("name", Json.str n)])]) ++
  (match f.resolution with
    | none => []
    | some n => [("resolution", Json.obj [("name", Json.str n)])])

/-- The wire form of each typed custom-field value (option and project values
marshal as objects with a single `value` property, lists elementwise). -/
def cfValueToJson : CFValue → Json
  | .str s => .str s
  | .num q => .num q
  | .opt v => .obj [("value", Json.str v)]
  | .proj v => .obj [("value", Json.str v)]
  | .optList vs => .arr (vs.map (fun v => Json.obj [("value", Json.str v)]))
  | .strList vs => .arr (vs.map Json.str)

/-- Sorted insertion used to model the sorted key order of Go object
marshaling. -/
def insertSorted (p : String × Json) : List (String × Json) → List (String × Json)
  | [] => [p]
  | q :: rest => if p.1 ≤ q.1 then p :: q :: rest else q :: insertSorted p rest

/-- The final object key order: Go marshals a `map[string]interface{}` with
its keys sorted. -/
def sortByKey (l : List (String × Json)) : List (String × Json) :=
  l.foldr insertSorted []

/-- From `jira.transitionFieldsMarshaler.MarshalJSON` via
`NewTransitionFieldsMarshaler(fields, customFields)`: the object serialized on
the wire, as its (sorted) key/value list.  `custom = none` embeds a `nil`
custom-field map, `custom = some cs` a map with entries `cs` (Go ranges over a
`nil` map exactly as over an empty one). -/
def marshalerObj (f : TransitionRequestFields)
    (custom : Option (List (String × CFValue))) : List (String × Json) :=
  let dm := staticObj f
  let dm2 :=
    match custom with
    | none => dm
    | some cs => cs.foldl (fun m p => goMapInsert m p.1 (cfValueToJson p.2)) dm
  sortByKey dm2

/-! ## Create-metadata lookup

From `jira.GetIssueTypeFields` in `pkg/jira/createmeta.go`.  The remote fetch
`GetCreateMeta` is an external HTTP call; its outcome is a parameter of the
embedding, an `Except` carrying either the error returned by the fetch or the
decoded `CreateMetaResponse`. -/

structure CreateMetaIssueType where
  id : String
  fields : List (String × IssueTypeField)

structure CreateMetaProject where
  key : String
  name : String
  issueTypes : List CreateMetaIssueType

structure CreateMetaResponse where
  projects : List CreateMetaProject

/-- From `jira.GetIssueTypeFields`: propagate a fetch error unchanged; fail
when the response has no projects; scan only the first project, returning the
field values of the first issue type whose ID matches, and fail when none
does. -/
def GetIssueTypeFields (fetched : Except String CreateMetaResponse)
    (project issueTypeID : String) : Except String (List IssueTypeField) :=
  match fetched with
  | .error e => .error e
  | .ok meta =>
    match meta.projects with
    | [] => .error ("no project found for key: " ++ project)
    | p :: _ =>
      match p.issueTypes.find? (fun it => it.id == issueTypeID) with
      | some issueType => .ok (issueType.fields.map Prod.snd)
      | none =>
        .error ("issue type with ID " ++ issueTypeID ++ " not found in project " ++ project)

/-! ## Claim theorems -/

/-- Whether the validation loop classifies a requested name as unknown
(not configured). -/
def isUnknownReq (configuredFields available : List IssueTypeField) (name : String) : Bool :=
  match classifyRequested configuredFields available name with
  | .unknown => true
  | _ => false

theorem goLookup_nil {α : Type} (k : String) : goLookup ([] : List (String × α)) k = none := rfl

theorem goLookup_foldl {α : Type} (k : String) (l : List (String × α)) :
    ∀ acc : Option α,
      l.foldl (fun a p => if p.1 = k then some p.2 else a) acc =
        match goLookup l k with
        | some v => some v
        | none => acc := by
  induction l with
  | nil => intro acc; simp [goLookup]
  | cons p rest ih =>
    intro acc
    show List.foldl _ (if p.1 = k then some p.2 else acc) rest = _
    rw [ih]
    have hrec : goLookup (p :: rest) k =
        match goLookup rest k with
        | some v => some v
        | none => if p.1 = k then some p.2 else none := by
      show List.foldl _ (if p.1 = k then some p.2 else none) rest = _
      rw [ih]
    rw [hrec]
    cases goLookup rest k with
    | some v => rfl
    | none => by_cases h : p.1 = k <;> simp [h]

theorem goLookup_cons {α : Type} (p : String × α) (l : List (String × α)) (k : String) :
    goLookup (p :: l) k =
      match goLookup l k with
      | some v => some v
      | none => if p.1 = k then some p.2 else none := by
  show List.foldl _ (if p.1 = k then some p.2 else none) l = _
  rw [goLookup_foldl]

theorem goLookup_append_single {α : Type} (l : List (String × α)) (q : String × α) (k : String) :
    goLookup (l ++ [q]) k = if q.1 = k then some q.2 else goLookup l k := by
  show List.foldl _ none (l ++ [q]) = _
  rw [List.foldl_append]
  show (if q.1 = k then some q.2 else goLookup l k) = _
  rfl

theorem goLookup_eq_none_iff {α : Type} (l : List (String × α)) (k : String) :
    goLookup l k = none ↔ ∀ p ∈ l, p.1 ≠ k := by
  induction l with
  | nil => simp [goLookup]
  | cons p rest ih =>
    rw [goLookup_cons]
    cases h : goLookup rest k with
    | some v =>
      simp only [List.mem_cons]
      constructor
      · intro hc; exact absurd hc (by simp)
      · intro hall
        exfalso
        have : ∀ q ∈ rest, q.1 ≠ k := fun q hq => hall q (Or.inr hq)
        rw [ih.mpr this] at h
        exact Option.noConfusion h
    | none =>
      by_cases hp : p.1 = k
      · simp [hp, ih.mp h]
      · simp only [hp, if_neg hp, List.mem_cons, true_iff]
        constructor
        · intro _ q hq
          rcases hq with rfl | hq
          · exact hp
          · exact (ih.mp h) q hq
        · intro _; rfl

theorem goLookup_some_mem {α : Type} {l : List (String × α)} {k : String} {v : α}
    (h : goLookup l k = some v) : (k, v) ∈ l := by
  induction l with
  | nil => exact absurd h (by simp [goLookup])
  | cons p rest ih =>
    rw [goLookup_cons] at h
    cases hr : goLookup rest k with
    | some w =>
      rw [hr] at h
      cases h
      exact List.mem_cons_of_mem _ (ih hr)
    | none =>
      rw [hr] at h
      by_cases hp : p.1 = k
      · rw [if_pos hp] at h
        cases h
        have : p = (k, p.2) := Prod.ext hp rfl
        rw [← this]
        exact List.mem_cons_self _ _
      · rw [if_neg hp] at h
        exact Option.noConfusion h

/-- Unfolding the validation loop: the three accumulated lists are the
corresponding filters of the requested list. -/
theorem vafLoop_foldl_append (configuredFields available : List IssueTypeField)
    (requested : List (String × String)) :
    ∀ acc : LoopAcc,
      requested.foldl (vafStep configuredFields available) acc =
        ⟨acc.validFields ++
            requested.filter (fun p => isValidReq configuredFields available p.1),
          acc.invalidFields ++
            (requested.filter
              (fun p => !(isValidReq configuredFields available p.1))).map Prod.fst,
          acc.invalidFieldKeys ++
            requested.filterMap (fun p => unavailKeyOf configuredFields available p.1)⟩ := by
  induction requested with
  | nil => intro acc; simp
  | cons p rest ih =>
    intro acc
    rw [List.foldl_cons, ih]
    cases hc : classifyRequested configuredFields available p.1 with
    | unknown =>
      simp [vafStep, isValidReq, unavailKeyOf, hc, List.filter_cons, List.filterMap_cons]
    | unavailable k =>
      simp [vafStep, isValidReq, unavailKeyOf, hc, List.filter_cons, List.filterMap_cons]
    | valid =>
      simp [vafStep, isValidReq, unavailKeyOf, hc, List.filter_cons, List.filterMap_cons]

theorem vafLoop_validFields (configuredFields available : List IssueTypeField)
    (requested : List (String × String)) :
    (vafLoop configuredFields available requested).validFields =
      requested.filter (fun p => isValidReq configuredFields available p.1) := by
  rw [vafLoop, vafLoop_foldl_append]
  simp

theorem vafLoop_invalidFields (configuredFields available : List IssueTypeField)
    (requested : List (String × String)) :
    (vafLoop configuredFields available requested).invalidFields =
      (requested.filter
        (fun p => !(isValidReq configuredFields available p.1))).map Prod.fst := by
  rw [vafLoop, vafLoop_foldl_append]
  simp

theorem vafLoop_invalidFieldKeys (configuredFields available : List IssueTypeField)
    (requested : List (String × String)) :
    (vafLoop configuredFields available requested).invalidFieldKeys =
      requested.filterMap (fun p => unavailKeyOf configuredFields available p.1) := by
  rw [vafLoop, vafLoop_foldl_append]
  simp

theorem classify_number (val : String) (sch : Schema)
    (h : sch.dataType = customFieldFormatNumber) :
    classify val sch =
      match parseGoFloat val with
      | none => CFValue.str val
      | some num => CFValue.num num := by
  unfold classify
  rw [h, if_neg (by decide), if_neg (by decide), if_neg (by decide), if_pos rfl]

theorem classify_array (val : String) (sch : Schema)
    (h : sch.dataType = customFieldFormatArray) :
    classify val sch =
      (if sch.items = customFieldFormatOption then
        CFValue.optList ((goSplitComma (goTrimSpace val)).map goTrimSpace)
      else CFValue.strList ((goSplitComma (goTrimSpace val)).map goTrimSpace)) := by
  unfold classify
  rw [h, if_neg (by decide), if_neg (by decide), if_pos rfl]

/-- The inner loop over the configured schemas appends one write for every
schema whose identifier equals the lowercased requested name. -/
theorem build_inner_foldl (key val : String) (configuredFields : List IssueTypeField) :
    ∀ acc : List (String × CFValue),
      configuredFields.foldl
        (fun cf configured =>
          if identifierOf configured.name ≠ goToLower key then cf
          else cf ++ [(configured.key, classify val configured.schema)])
        acc =
      acc ++ configuredFields.filterMap
        (fun c =>
          if identifierOf c.name = goToLower key then
            some (c.key, classify val c.schema)
          else none) := by
  induction configuredFields with
  | nil => intro acc; simp
  | cons c rest ih =>
    intro acc
    rw [List.foldl_cons, ih, List.filterMap_cons]
    by_cases hc : identifierOf c.name = goToLower key
    · rw [if_neg (not_not_intro hc), if_pos hc]
      simp
    · rw [if_pos hc, if_neg hc]

/-- A single requested pair produces exactly one write per matching configured
schema, in configured order. -/
theorem build_pair_eq_filterMap (key val : String)
    (configuredFields : List IssueTypeField) (h : configuredFields ≠ []) :
    BuildCustomFieldsForTransition [(key, val)] configuredFields =
      some (configuredFields.filterMap
        (fun c =>
          if identifierOf c.name = goToLower key then
            some (c.key, classify val c.schema)
          else none)) := by
  unfold BuildCustomFieldsForTransition
  rw [if_neg]
  · rw [List.foldl_cons, List.foldl_nil, build_inner_foldl]
    rw [List.nil_append]
  · simp [List.length_eq_zero, h]

/-! Lemmas on `goMapInsert`, the merge fold and `sortByKey`. -/

theorem mem_keys_goMapInsert {α : Type} (m : List (String × α)) (k : String) (v : α)
    (a : String) :
    a ∈ (goMapInsert m k v).map Prod.fst ↔ a = k ∨ a ∈ m.map Prod.fst := by
  induction m with
  | nil => simp [goMapInsert]
  | cons p rest ih =>
    by_cases hp : p.1 = k
    · rw [goMapInsert, if_pos hp]
      simp only [List.map_cons, List.mem_cons, hp]
      tauto
    · rw [goMapInsert, if_neg hp]
      simp only [List.map_cons, List.mem_cons, ih]
      tauto

theorem keysNodup_goMapInsert {α : Type} {m : List (String × α)} (k : String) (v : α)
    (h : keysNodup m) : keysNodup (goMapInsert m k v) := by
  induction m with
  | nil => simp [goMapInsert, keysNodup]
  | cons p rest ih =>
    unfold keysNodup at h
    rw [List.map_cons, List.nodup_cons] at h
    by_cases hp : p.1 = k
    · unfold keysNodup
      rw [goMapInsert, if_pos hp, List.map_cons, List.nodup_cons]
      exact ⟨hp ▸ h.1, h.2⟩
    · unfold keysNodup
      rw [goMapInsert, if_neg hp, List.map_cons, List.nodup_cons]
      refine ⟨?_, ih h.2⟩
      rw [mem_keys_goMapInsert]
      rintro (rfl | hmem)
      · exact hp rfl
      · exact h.1 hmem

theorem goLookup_goMapInsert {α : Type} {m : List (String × α)} (k : String) (v : α)
    (k' : String) (h : keysNodup m) :
    goLookup (goMapInsert m k v) k' = if k = k' then some v else goLookup m k' := by
  induction m with
  | nil =>
    rw [goMapInsert, goLookup_cons]
    by_cases hk : k = k' <;> simp [hk, goLookup_nil]
  | cons p rest ih =>
    unfold keysNodup at h
    rw [List.map_cons, List.nodup_cons] at h
    by_cases hp : p.1 = k
    · rw [goMapInsert, if_pos hp, goLookup_cons, goLookup_cons]
      by_cases hk : k = k'
      · subst hk
        have hnone : goLookup rest k = none := by
          rw [goLookup_eq_none_iff]
          intro q hq hqk
          exact h.1 (by rw [hp, ← hqk]; exact List.mem_map_of_mem Prod.fst hq)
        rw [hnone]
        simp [hp]
      · have hpk : ¬ p.1 = k' := fun hc => hk (hp ▸ hc)
        cases hr : goLookup rest k' with
        | some w => simp [hk]
        | none => simp [hk, hpk]
    · rw [goMapInsert, if_neg hp, goLookup_cons, goLookup_cons, ih h.2]
      by_cases hk : k = k'
      · have hpk : ¬ p.1 = k' := fun hc => hp (hc.trans hk.symm)
        simp [hk, hpk]
      · simp [hk]

/-- The custom-field injection fold: key uniqueness is preserved and the final
lookup of a key is the custom value when the custom map binds it, the static
value otherwise. -/
theorem foldl_goMapInsert_spec (cs : List (String × CFValue)) :
    ∀ m : List (String × Json), keysNodup m →
      keysNodup (cs.foldl (fun m p => goMapInsert m p.1 (cfValueToJson p.2)) m) ∧
      ∀ k, goLookup (cs.foldl (fun m p => goMapInsert m p.1 (cfValueToJson p.2)) m) k =
        match goLookup cs k with
        | some v => some (cfValueToJson v)
        | none => goLookup m k := by
  induction cs with
  | nil =>
    intro m hm
    exact ⟨hm, fun k => rfl⟩
  | cons p rest ih =>
    intro m hm
    rw [List.foldl_cons]
    obtain ⟨hnd, hlk⟩ := ih (goMapInsert m p.1 (cfValueToJson p.2))
      (keysNodup_goMapInsert _ _ hm)
    refine ⟨hnd, fun k => ?_⟩
    rw [hlk k, goLookup_cons, goLookup_goMapInsert _ _ _ hm]
    cases goLookup rest k with
    | some v => rfl
    | none => by_cases hp : p.1 = k <;> simp [hp]

theorem insertSorted_perm (p : String × Json) (l : List (String × Json)) :
    (insertSorted p l).Perm (p :: l) := by
  induction l with
  | nil => rw [insertSorted]
  | cons q rest ih =>
    rw [insertSorted]
    by_cases h : p.1 ≤ q.1
    · rw [if_pos h]
    · rw [if_neg h]
      exact (ih.cons q).trans (List.Perm.swap p q rest)

theorem sortByKey_perm (l : List (String × Json)) : (sortByKey l).Perm l := by
  induction l with
  | nil => exact List.Perm.refl _
  | cons p rest ih =>
    have : sortByKey (p :: rest) = insertSorted p (sortByKey rest) := rfl
    rw [this]
    exact (insertSorted_perm p (sortByKey rest)).trans (ih.cons p)

theorem keysNodup_unique_val {α : Type} {m : List (String × α)} (h : keysNodup m)
    {k : String} {a b : α} (ha : (k, a) ∈ m) (hb : (k, b) ∈ m) : a = b := by
  induction m with
  | nil => cases ha
  | cons p rest ih =>
    unfold keysNodup at h
    rw [List.map_cons, List.nodup_cons] at h
    rcases List.mem_cons.mp ha with ha1 | ha2 <;> rcases List.mem_cons.mp hb with hb1 | hb2
    · rw [← ha1] at hb1
      exact (congrArg Prod.snd hb1).symm
    · subst ha1
      exact absurd (List.mem_map_of_mem Prod.fst hb2) (by simpa using h.1)
    · subst hb1
      exact absurd (List.mem_map_of_mem Prod.fst ha2) (by simpa using h.1)
    · exact ih h.2 ha2 hb2

theorem staticObj_keysNodup (f : TransitionRequestFields) : keysNodup (staticObj f) := by
  obtain ⟨a, r⟩ := f
  cases a <;> cases r <;> simp [staticObj, keysNodup]

/-- C1: strict validation is all-or-nothing.  For every nonempty requested
map, if some requested name is not valid — its lowercased form matches no
configured identifier, or the resolved remote key is absent from the
available-field list (`isValidReq` is exactly that per-name test of the
source loop) — the function returns an error (the Go pair `(nil, err)`);
otherwise it returns exactly the requested entries with no error. -/
theorem strict_validation_all_or_nothing
    (requested : List (String × String)) (available configuredFields : List IssueTypeField)
    (issueTypeName : String) (hne : requested ≠ []) :
    ((∃ p ∈ requested, isValidReq configuredFields available p.1 = false) →
      ∃ msg, ValidateAndFilterCustomFields requested available configuredFields issueTypeName =
        .err msg) ∧
    ((∀ p ∈ requested, isValidReq configuredFields available p.1 = true) →
      ValidateAndFilterCustomFields requested available configuredFields issueTypeName =
        .ok requested) := by
  have hlen : ¬ requested.length = 0 := by
    simpa [List.length_eq_zero] using hne
  constructor
  · rintro ⟨p, hp, hv⟩
    unfold ValidateAndFilterCustomFields
    rw [if_neg hlen]
    have hmem : p ∈ requested.filter (fun q => !(isValidReq configuredFields available q.1)) :=
      List.mem_filter.mpr ⟨hp, by rw [hv]; rfl⟩
    have hpos : 0 < (vafLoop configuredFields available requested).invalidFields.length := by
      rw [vafLoop_invalidFields, List.length_map]
      exact List.length_pos.mpr (List.ne_nil_of_mem hmem)
    rw [if_pos hpos]
    exact ⟨_, rfl⟩
  · intro hall
    unfold ValidateAndFilterCustomFields
    rw [if_neg hlen]
    have hnil : requested.filter (fun q => !(isValidReq configuredFields available q.1)) = [] := by
      rw [List.filter_eq_nil_iff]
      intro q hq
      rw [hall q hq]
      simp
    have hz : (vafLoop configuredFields available requested).invalidFields.length = 0 := by
      rw [vafLoop_invalidFields, hnil]
      rfl
    rw [if_neg (by omega)]
    rw [vafLoop_validFields, List.filter_eq_self.mpr (fun q hq => hall q hq)]

/-- Witness for C1 at a concrete valid input. -/
theorem strict_validation_all_or_nothing_witness :
    ([(("story-points" : String), ("5" : String))] ≠ []) ∧
      ValidateAndFilterCustomFields [("story-points", "5")]
        [⟨"Story Points", "customfield_10001", ⟨"number", ""⟩⟩]
        [⟨"Story Points", "customfield_10001", ⟨"number", ""⟩⟩] "Task" =
        .ok [("story-points", "5")] :=
  ⟨by decide,
    (strict_validation_all_or_nothing _ _ _ _ (by decide)).2 (by decide)⟩

set_option maxRecDepth 40000 in
/-- C7 counterexample: at a concrete failing input whose available-field list
holds the remote custom field `customfield_10001` (display name
`Story Points`), strict validation fails and the remote key
`customfield_10001` does not occur anywhere in the diagnostic message — the
message lists only the display-identifier `story-points`, so the claim that it
lists every available remote custom field key together with its
display-identifier is false. -/
theorem validation_errmsg_counterexample :
    ((ValidateAndFilterCustomFields [("bogus", "1")]
        [⟨"Story Points", "customfield_10001", ⟨"number", ""⟩⟩] [] "Task").errMsg.map
      (occursIn "customfield_10001")) = some false := by decide

/-- C7 (amended): when strict validation fails, the diagnostic is exactly
`buildErrMsg` applied to the issue type name, the list of every invalid
requested name, the resolved remote keys of the configured-but-unavailable
subset, and the display-identifiers (normalized names, not the remote keys)
of the available remote custom fields whose key starts with `customfield_`
and whose name is nonempty. -/
theorem validation_errmsg_contents
    (requested : List (String × String)) (available configuredFields : List IssueTypeField)
    (issueTypeName : String)
    (hinv : ∃ p ∈ requested, isValidReq configuredFields available p.1 = false) :
    ValidateAndFilterCustomFields requested available configuredFields issueTypeName =
      .err (buildErrMsg issueTypeName
        ((requested.filter (fun p => !(isValidReq configuredFields available p.1))).map Prod.fst)
        (requested.filterMap (fun p => unavailKeyOf configuredFields available p.1))
        (availableCustomIdentifiers available)) := by
  obtain ⟨p, hp, hv⟩ := hinv
  have hlen : ¬ requested.length = 0 := by
    simp only [List.length_eq_zero]
    exact List.ne_nil_of_mem hp
  unfold ValidateAndFilterCustomFields
  rw [if_neg hlen]
  have hmem : p ∈ requested.filter (fun q => !(isValidReq configuredFields available q.1)) :=
    List.mem_filter.mpr ⟨hp, by rw [hv]; rfl⟩
  have hpos : 0 < (vafLoop configuredFields available requested).invalidFields.length := by
    rw [vafLoop_invalidFields, List.length_map]
    exact List.length_pos.mpr (List.ne_nil_of_mem hmem)
  rw [if_pos hpos, vafLoop_invalidFields, vafLoop_invalidFieldKeys]

/-- Witness for C7 (amended) at a concrete failing input. -/
theorem validation_errmsg_contents_witness :
    (∃ p ∈ [(("bogus" : String), ("1" : String))],
        isValidReq [] [⟨"Story Points", "customfield_10001", ⟨"number", ""⟩⟩] p.1 = false) ∧
      ValidateAndFilterCustomFields [("bogus", "1")]
        [⟨"Story Points", "customfield_10001", ⟨"number", ""⟩⟩] [] "Task" =
        .err (buildErrMsg "Task"
          (([(("bogus" : String), ("1" : String))].filter
            (fun p => !(isValidReq []
              [⟨"Story Points", "customfield_10001", ⟨"number", ""⟩⟩] p.1))).map Prod.fst)
          ([(("bogus" : String), ("1" : String))].filterMap
            (fun p => unavailKeyOf []
              [⟨"Story Points", "customfield_10001", ⟨"number", ""⟩⟩] p.1))
          (availableCustomIdentifiers
            [⟨"Story Points", "customfield_10001", ⟨"number", ""⟩⟩])) :=
  ⟨by decide, validation_errmsg_contents _ _ _ _ (by decide)⟩

/-- C3 counterexample: the lenient check looks the requested name up without
lowercasing it, unlike the strict validator.  For the requested name
`Story-Points` — whose lowercased form `story-points` equals the configured
identifier of `Story Points` — the lenient check reports the name as invalid
while the strict validator accepts it (classifies it as valid, not unknown). -/
theorem lenient_lookup_counterexample :
    ValidateCustomFields [("Story-Points", "5")]
        [⟨"Story Points", "customfield_10001", ⟨"number", ""⟩⟩] = ["Story-Points"] ∧
      ValidateAndFilterCustomFields [("Story-Points", "5")]
        [⟨"Story Points", "customfield_10001", ⟨"number", ""⟩⟩]
        [⟨"Story Points", "customfield_10001", ⟨"number", ""⟩⟩] "Task" =
        .ok [("Story-Points", "5")] ∧
      goToLower "Story-Points" = "story-points" ∧
      identifierOf "Story Points" = "story-points" := by decide

/-- Both maps built over the same configured list bind exactly the same keys,
so emptiness of a lookup agrees between them. -/
theorem goLookup_isNone_same_keys {α β : Type} {γ : Type} (l : List γ) (g : γ → String)
    (f1 : γ → α) (f2 : γ → β) (k : String) :
    (goLookup (l.map fun x => (g x, f1 x)) k).isNone =
      (goLookup (l.map fun x => (g x, f2 x)) k).isNone := by
  induction l with
  | nil => rfl
  | cons x rest ih =>
    rw [List.map_cons, List.map_cons, goLookup_cons, goLookup_cons]
    cases h1 : goLookup (rest.map fun x => (g x, f1 x)) k with
    | some v =>
      rw [h1] at ih
      cases h2 : goLookup (rest.map fun x => (g x, f2 x)) k with
      | some w => rfl
      | none => rw [h2] at ih; exact absurd ih (by simp)
    | none =>
      rw [h1] at ih
      cases h2 : goLookup (rest.map fun x => (g x, f2 x)) k with
      | some w => rw [h2] at ih; exact absurd ih (by simp)
      | none => by_cases hg : g x = k <;> simp [hg]

/-- Unknown-ness of a requested name is exactly an empty lookup of its
lowercased form in the configured-identifier map. -/
theorem isUnknownReq_eq (configuredFields available : List IssueTypeField) (name : String) :
    isUnknownReq configuredFields available name =
      (goLookup (configuredIdMap configuredFields) (goToLower name)).isNone := by
  cases h : goLookup (configuredIdMap configuredFields) (goToLower name) with
  | none =>
    unfold isUnknownReq classifyRequested
    simp [h]
  | some fieldKey =>
    unfold isUnknownReq classifyRequested
    simp only [h]
    cases goLookup (availableKeyMap available) fieldKey <;> rfl

/-- C3 (amended): the lenient check builds its map over the same normalized
configured identifiers as the strict validator but looks the requested name up
as written, without lowercasing it.  Whenever every requested name is already
lowercase (so the lookup keys coincide), the names it warns about are exactly
the names the strict validator classifies as unknown; for mixed-case requested
names the two checks can disagree. -/
theorem lenient_matches_strict_unknowns
    (requested : List (String × String)) (configuredFields available : List IssueTypeField)
    (hlc : ∀ p ∈ requested, goToLower p.1 = p.1) :
    ValidateCustomFields requested configuredFields =
      (requested.filter (fun p => isUnknownReq configuredFields available p.1)).map Prod.fst := by
  unfold ValidateCustomFields
  by_cases hr : requested.length = 0
  · rw [if_pos hr]
    rw [List.length_eq_zero] at hr
    rw [hr]
    rfl
  · rw [if_neg hr]
    congr 1
    apply List.filter_congr
    intro p hp
    rw [isUnknownReq_eq, hlc p hp]
    unfold lenientFieldsMap configuredIdMap
    exact goLookup_isNone_same_keys configuredFields (fun c => identifierOf c.name)
      (fun c => c.name) (fun c => c.key) p.1

/-- Witness for C3 (amended) at a concrete all-lowercase input. -/
theorem lenient_matches_strict_unknowns_witness :
    (∀ p ∈ [(("story-points" : String), ("5" : String)), (("bogus" : String), ("1" : String))],
        goToLower p.1 = p.1) ∧
      ValidateCustomFields [("story-points", "5"), ("bogus", "1")]
          [⟨"Story Points", "customfield_10001", ⟨"number", ""⟩⟩] =
        ([(("story-points" : String), ("5" : String)), (("bogus" : String), ("1" : String))].filter
          (fun p => isUnknownReq [⟨"Story Points", "customfield_10001", ⟨"number", ""⟩⟩]
            [] p.1)).map Prod.fst :=
  ⟨by decide,
    lenient_matches_strict_unknowns _ [⟨"Story Points", "customfield_10001", ⟨"number", ""⟩⟩]
      [] (by decide)⟩

/-- C2 counterexample: two configured schemas named `X` (same identifier `x`)
with distinct keys `k1`, `k2`.  The builder writes an entry for BOTH keys —
the second matching schema's key also receives an entry, so "only the first
such schema's key receives an entry" is false.  (The inner loop of
`BuildCustomFieldsForTransition` has no `break`.) -/
theorem build_duplicate_identifier_counterexample :
    BuildCustomFieldsForTransition [("x", "v")]
        [⟨"X", "k1", ⟨"string", ""⟩⟩, ⟨"X", "k2", ⟨"string", ""⟩⟩] =
      some [("k1", CFValue.str "v"), ("k2", CFValue.str "v")] ∧
      goLookup [("k1", CFValue.str "v"), ("k2", CFValue.str "v")] "k2" =
        some (CFValue.str "v") := by decide

/-- C2 (amended): every requested name is lowercased and compared to each
configured schema's normalized identifier, and EVERY configured schema whose
identifier equals the lowercased requested name contributes a write under its
own key, in configured order; since a map read returns the last write, when
several matching schemas share a key the LAST such schema in the configured
list determines that key's value (not the first). -/
theorem build_every_matching_schema_writes (key val : String)
    (configuredFields : List IssueTypeField) (h : configuredFields ≠ []) :
    BuildCustomFieldsForTransition [(key, val)] configuredFields =
      some (configuredFields.filterMap
        (fun c =>
          if identifierOf c.name = goToLower key then some (c.key, classify val c.schema)
          else none)) :=
  build_pair_eq_filterMap key val configuredFields h

/-- Witness for C2 (amended) at a concrete input. -/
theorem build_every_matching_schema_writes_witness :
    ([⟨"Environment", "customfield_10002", ⟨"option", ""⟩⟩] ≠ ([] : List IssueTypeField)) ∧
      BuildCustomFieldsForTransition [("environment", "production")]
          [⟨"Environment", "customfield_10002", ⟨"option", ""⟩⟩] =
        some [("customfield_10002", CFValue.opt "production")] :=
  ⟨by decide,
    (build_every_matching_schema_writes "environment" "production" _ (by decide)).trans
      (by decide)⟩

/-- C5: for a configured field of data type `number`, the builder attempts a
float parse of the raw value; on success the entry at the field's key is the
parsed number, on failure it is the raw string unchanged — and the builder
returns a result (it has no error outcome) in both cases. -/
theorem number_field_graceful_parse (name val : String) (f : IssueTypeField)
    (hd : f.schema.dataType = customFieldFormatNumber)
    (hm : identifierOf f.name = goToLower name) :
    BuildCustomFieldsForTransition [(name, val)] [f] =
      some [(f.key,
        match parseGoFloat val with
        | some q => CFValue.num q
        | none => CFValue.str val)] := by
  rw [build_pair_eq_filterMap name val [f] (by simp)]
  simp only [List.filterMap_cons, List.filterMap_nil]
  rw [if_pos hm, classify_number val f.schema hd]
  cases parseGoFloat val <;> rfl

/-- Witness for C5: a parseable and an unparseable numeric value. -/
theorem number_field_graceful_parse_witness :
    BuildCustomFieldsForTransition [("story-points", "5")]
        [⟨"Story Points", "customfield_10001", ⟨"number", ""⟩⟩] =
      some [("customfield_10001", CFValue.num 5)] ∧
      BuildCustomFieldsForTransition [("story-points", "abc")]
          [⟨"Story Points", "customfield_10001", ⟨"number", ""⟩⟩] =
        some [("customfield_10001", CFValue.str "abc")] :=
  ⟨(number_field_graceful_parse "story-points" "5"
      ⟨"Story Points", "customfield_10001", ⟨"number", ""⟩⟩ rfl (by decide)).trans (by decide),
    (number_field_graceful_parse "story-points" "abc"
      ⟨"Story Points", "customfield_10001", ⟨"number", ""⟩⟩ rfl (by decide)).trans (by decide)⟩

/-- C6: for a configured field of data type `array`, the builder splits the
raw value on commas and trims every piece; with item type `option` the entry
is the ordered option list over the trimmed pieces, otherwise the ordered list
of trimmed strings. -/
theorem array_field_split_and_trim (name val : String) (f : IssueTypeField)
    (hd : f.schema.dataType = customFieldFormatArray)
    (hm : identifierOf f.name = goToLower name) :
    BuildCustomFieldsForTransition [(name, val)] [f] =
      some [(f.key,
        if f.schema.items = customFieldFormatOption then
          CFValue.optList ((goSplitComma (goTrimSpace val)).map goTrimSpace)
        else CFValue.strList ((goSplitComma (goTrimSpace val)).map goTrimSpace))] := by
  rw [build_pair_eq_filterMap name val [f] (by simp)]
  simp only [List.filterMap_cons, List.filterMap_nil]
  rw [if_pos hm, classify_array val f.schema hd]

/-- Witness for C6: `tags="bug, urgent"` yields the trimmed list
`["bug", "urgent"]`, with and without option item type. -/
theorem array_field_split_and_trim_witness :
    BuildCustomFieldsForTransition [("tags", "bug, urgent")]
        [⟨"Tags", "customfield_10003", ⟨"array", ""⟩⟩] =
      some [("customfield_10003", CFValue.strList ["bug", "urgent"])] ∧
      BuildCustomFieldsForTransition [("tags", "bug, urgent")]
          [⟨"Tags", "customfield_10003", ⟨"array", "option"⟩⟩] =
        some [("customfield_10003", CFValue.optList ["bug", "urgent"])] :=
  ⟨(array_field_split_and_trim "tags" "bug, urgent"
      ⟨"Tags", "customfield_10003", ⟨"array", ""⟩⟩ rfl (by decide)).trans (by decide),
    (array_field_split_and_trim "tags" "bug, urgent"
      ⟨"Tags", "customfield_10003", ⟨"array", "option"⟩⟩ rfl (by decide)).trans (by decide)⟩

/-- C9: for an `array` field, a raw value that is empty or all whitespace
classifies to a one-element list holding the empty string (wrapped as an
option value when the item type is `option`), never to an empty list: the
comma split runs on the trimmed value with no emptiness check, and splitting
the empty string yields one empty piece. -/
theorem array_empty_value_singleton (val : String) (sch : Schema)
    (hd : sch.dataType = customFieldFormatArray) (hv : goTrimSpace val = "") :
    classify val sch =
      (if sch.items = customFieldFormatOption then CFValue.optList [""]
       else CFValue.strList [""]) := by
  rw [classify_array val sch hd, hv]
  rfl

/-- Witness for C9: an all-whitespace value and the empty value. -/
theorem array_empty_value_singleton_witness :
    goTrimSpace "   " = "" ∧
      classify "   " ⟨"array", ""⟩ = CFValue.strList [""] ∧
      classify "" ⟨"array", "option"⟩ = CFValue.optList [""] :=
  ⟨by decide,
    (array_empty_value_singleton "   " ⟨"array", ""⟩ rfl (by decide)).trans (by decide),
    (array_empty_value_singleton "" ⟨"array", "option"⟩ rfl rfl).trans (by decide)⟩

/-- C4: marshaling with a `nil` custom-field map and with an empty one
produce the same serialized object (hence identical bytes), and that object is
exactly the key-order normalization of the static fields serialized alone:
the custom-field merge step is a no-op without custom fields. -/
theorem marshal_empty_custom_noop (f : TransitionRequestFields) :
    marshalerObj f none = marshalerObj f (some []) ∧
      marshalerObj f none = sortByKey (staticObj f) :=
  ⟨rfl, rfl⟩

/-- C8: every custom-field binding is inserted into the generic map obtained
from the static fields, overwriting any static entry with the same key: the
custom value for a key is the one appearing in the final serialized payload,
and it is the only binding of that key there. -/
theorem custom_fields_win_on_collision (f : TransitionRequestFields)
    (cs : List (String × CFValue)) (k : String) (v : CFValue)
    (h : goLookup cs k = some v) :
    (k, cfValueToJson v) ∈ marshalerObj f (some cs) ∧
      ∀ j, (k, j) ∈ marshalerObj f (some cs) → j = cfValueToJson v := by
  obtain ⟨hnd, hlk⟩ := foldl_goMapInsert_spec cs (staticObj f) (staticObj_keysNodup f)
  have hlook :
      goLookup (cs.foldl (fun m p => goMapInsert m p.1 (cfValueToJson p.2)) (staticObj f)) k =
        some (cfValueToJson v) := by
    rw [hlk k, h]
  have hmem := goLookup_some_mem hlook
  have hperm : (marshalerObj f (some cs)).Perm
      (cs.foldl (fun m p => goMapInsert m p.1 (cfValueToJson p.2)) (staticObj f)) :=
    sortByKey_perm _
  refine ⟨hperm.mem_iff.mpr hmem, fun j hj => ?_⟩
  exact keysNodup_unique_val hnd (hperm.mem_iff.mp hj) hmem

/-- Witness for C8 at a concrete collision: the custom map binds `assignee`,
which collides with the static assignee field, and the custom value wins. -/
theorem custom_fields_win_on_collision_witness :
    goLookup [(("assignee" : String), CFValue.str "override")] "assignee" =
        some (CFValue.str "override") ∧
      (("assignee", cfValueToJson (CFValue.str "override")) ∈
          marshalerObj ⟨some "jane", none⟩ (some [("assignee", CFValue.str "override")]) ∧
        ∀ j, ("assignee", j) ∈
            marshalerObj ⟨some "jane", none⟩ (some [("assignee", CFValue.str "override")]) →
          j = cfValueToJson (CFValue.str "override")) :=
  ⟨rfl,
    custom_fields_win_on_collision ⟨some "jane", none⟩
      [("assignee", CFValue.str "override")] "assignee" (CFValue.str "override") rfl⟩

/-- C10: the metadata lookup errs exactly when the fetch fails (the fetch
error is propagated unchanged), the response has no projects, or no issue
type with the given ID exists among the FIRST project's issue types; projects
after the first are never examined (the result is invariant under replacing
them), and on success the result is exactly the field values of the first
matching issue type of the first project. -/
theorem getIssueTypeFields_first_project_only
    (fetched : Except String CreateMetaResponse) (project issueTypeID : String) :
    (∀ e, fetched = .error e →
        GetIssueTypeFields fetched project issueTypeID = .error e) ∧
    (∀ meta, fetched = .ok meta →
      (meta.projects = [] →
          GetIssueTypeFields fetched project issueTypeID =
            .error ("no project found for key: " ++ project)) ∧
      (∀ p rest, meta.projects = p :: rest →
        ((∀ it, p.issueTypes.find? (fun t => t.id == issueTypeID) = some it →
            GetIssueTypeFields fetched project issueTypeID = .ok (it.fields.map Prod.snd)) ∧
          (p.issueTypes.find? (fun t => t.id == issueTypeID) = none →
            GetIssueTypeFields fetched project issueTypeID =
              .error ("issue type with ID " ++ issueTypeID ++ " not found in project " ++
                project)) ∧
          ∀ rest2, GetIssueTypeFields (.ok ⟨p :: rest⟩) project issueTypeID =
              GetIssueTypeFields (.ok ⟨p :: rest2⟩) project issueTypeID))) := by
  constructor
  · rintro e rfl
    rfl
  · rintro meta rfl
    constructor
    · intro hp
      simp only [GetIssueTypeFields, hp]
    · rintro p rest hpr
      refine ⟨fun it hit => ?_, fun hnone => ?_, fun rest2 => ?_⟩
      · simp only [GetIssueTypeFields, hpr, hit]
      · simp only [GetIssueTypeFields, hpr, hnone]
      · rfl

/-- Witness for C10 at a concrete successful lookup. -/
theorem getIssueTypeFields_first_project_only_witness :
    GetIssueTypeFields
        (Except.ok ⟨[⟨"PROJ", "Project",
          [⟨"10", [("summary", ⟨"Summary", "summary", ⟨"string", ""⟩⟩)]⟩]⟩]⟩)
        "PROJ" "10" =
      Except.ok [⟨"Summary", "summary", ⟨"string", ""⟩⟩] :=
  (((getIssueTypeFields_first_project_only
      (Except.ok ⟨[⟨"PROJ", "Project",
        [⟨"10", [("summary", ⟨"Summary", "summary", ⟨"string", ""⟩⟩)]⟩]⟩]⟩) "PROJ" "10").2
    ⟨[⟨"PROJ", "Project", [⟨"10", [("summary", ⟨"Summary", "summary", ⟨"string", ""⟩⟩)]⟩]⟩]⟩
    rfl).2
    ⟨"PROJ", "Project", [⟨"10", [("summary", ⟨"Summary", "summary", ⟨"string", ""⟩⟩)]⟩]⟩ []
    rfl).1
    ⟨"10", [("summary", ⟨"Summary", "summary", ⟨"string", ""⟩⟩)]⟩ rfl
